import Mathlib

/-!
Shallow embedding of the `swap_aggregator` repository (Rust, alloy `U256`).

`U256` values are modelled as `Nat` below `2 ^ 256`.  The alloy/ruint
arithmetic operators follow Rust's standard overflow discipline: overflow,
subtraction underflow and division by zero abort the computation (panic),
which is modelled here by `Option Nat` with `none` for a panic.  All checks
are made explicit through `checkedMul`, `checkedAdd`, `checkedSub` and
`checkedDiv`.
-/

def U256LIM : Nat := 2 ^ 256

def checkedMul (a b : Nat) : Option Nat :=
  if a * b < U256LIM then some (a * b) else none

def checkedAdd (a b : Nat) : Option Nat :=
  if a + b < U256LIM then some (a + b) else none

def checkedSub (a b : Nat) : Option Nat :=
  if b ≤ a then some (a - b) else none

def checkedDiv (a b : Nat) : Option Nat :=
  if b = 0 then none else some (a / b)

namespace math

/-- Embedding of `src/math.rs::get_amount_out`: the Uniswap V2 constant
product output formula with a 0.3% fee, on checked 256-bit arithmetic. -/
def get_amount_out (amount_in reserve_in reserve_out : Nat) : Option Nat :=
  if reserve_in = 0 ∨ reserve_out = 0 then some 0
  else do
    let amount_in_with_fee ← checkedMul amount_in 997
    let numerator ← checkedMul amount_in_with_fee reserve_out
    let scaled_reserve_in ← checkedMul reserve_in 1000
    let denominator ← checkedAdd scaled_reserve_in amount_in_with_fee
    checkedDiv numerator denominator

end math

/-- The mathematical formula the spec states for `get_amount_out`, on
unbounded naturals: `floor(amount_in*997*reserve_out /
(reserve_in*1000 + amount_in*997))`, with zero for an illiquid pool.
Second definition, following the spec's words, for comparison with the
embedded code. -/
def amountOutSpec (amount_in reserve_in reserve_out : Nat) : Nat :=
  if reserve_in = 0 ∨ reserve_out = 0 then 0
  else amount_in * 997 * reserve_out / (reserve_in * 1000 + amount_in * 997)

/-- Whenever the code returns a value, that value is the spec formula. -/
lemma get_amount_out_some (a ri ro v : Nat)
    (h : math.get_amount_out a ri ro = some v) :
    v = amountOutSpec a ri ro := by
  unfold math.get_amount_out at h
  by_cases h0 : ri = 0 ∨ ro = 0
  · simp [h0] at h; simp [amountOutSpec, h0, h.symm]
  · simp only [h0, if_false, checkedMul, checkedAdd, checkedDiv,
      Option.bind_eq_bind, Option.bind_eq_some, Option.ite_none_right_eq_some,
      Option.ite_none_left_eq_some, Option.some.injEq] at h
    obtain ⟨fee, ⟨hfee, rfl⟩, num, ⟨hnum, rfl⟩, sc, ⟨hsc, rfl⟩, den,
      ⟨hden, rfl⟩, hd0, rfl⟩ := h
    simp [amountOutSpec, h0]

/-- When no intermediate product overflows 256 bits, the code returns the
spec formula. -/
lemma get_amount_out_eq_spec (a ri ro : Nat)
    (hnum : a * 997 * ro < U256LIM)
    (hden : ri * 1000 + a * 997 < U256LIM) :
    math.get_amount_out a ri ro = some (amountOutSpec a ri ro) := by
  unfold math.get_amount_out amountOutSpec
  by_cases h0 : ri = 0 ∨ ro = 0
  · simp [h0]
  · push_neg at h0
    have hri : ri ≠ 0 := h0.1
    have hfee : a * 997 < U256LIM := by omega
    have hsc : ri * 1000 < U256LIM := by omega
    have hdenpos : ri * 1000 + a * 997 ≠ 0 := by
      have : 1 ≤ ri := Nat.one_le_iff_ne_zero.mpr hri
      have : 1000 ≤ ri * 1000 := by omega
      omega
    have hnum' : a * 997 * ro < U256LIM := hnum
    simp only [h0, or_self, if_false]
    simp [checkedMul, checkedAdd, checkedDiv, hfee, hsc, hnum', hden, hdenpos,
      not_or, hri]

lemma div_le_div_cross (p q p' q' : Nat) (hq : 0 < q) (hq' : 0 < q')
    (h : p * q' ≤ p' * q) : p / q ≤ p' / q' := by
  rw [Nat.le_div_iff_mul_le hq']
  have h1 : p / q * q ≤ p := Nat.div_mul_le_self p q
  have h2 : p / q * q' * q ≤ p' * q := by
    calc p / q * q' * q = p / q * q * q' := by ring
      _ ≤ p * q' := Nat.mul_le_mul_right _ h1
      _ ≤ p' * q := h
  exact Nat.le_of_mul_le_mul_right h2 hq

lemma amountOutSpec_lt (a ri ro : Nat) (hri : 0 < ri) (hro : 0 < ro) :
    amountOutSpec a ri ro < ro := by
  unfold amountOutSpec
  have h0 : ¬(ri = 0 ∨ ro = 0) := by omega
  simp only [h0, if_false]
  have hden : 0 < ri * 1000 + a * 997 := by positivity
  rw [Nat.div_lt_iff_lt_mul hden]
  have : 0 < ro * (ri * 1000) := by positivity
  calc a * 997 * ro = ro * (a * 997) := by ring
    _ < ro * (ri * 1000) + ro * (a * 997) := by omega
    _ = ro * (ri * 1000 + a * 997) := by ring

lemma amountOutSpec_le (a ri ro : Nat) : amountOutSpec a ri ro ≤ ro := by
  by_cases h0 : ri = 0 ∨ ro = 0
  · unfold amountOutSpec; simp [h0]
  · push_neg at h0
    exact Nat.le_of_lt (amountOutSpec_lt a ri ro
      (Nat.pos_of_ne_zero h0.1) (Nat.pos_of_ne_zero h0.2))

lemma amountOutSpec_mono_amount (a a' ri ro : Nat) (h : a ≤ a') :
    amountOutSpec a ri ro ≤ amountOutSpec a' ri ro := by
  unfold amountOutSpec
  by_cases h0 : ri = 0 ∨ ro = 0
  · simp [h0]
  · push_neg at h0
    simp only [h0.1, h0.2, or_self, if_false, false_or]
    have hpos := Nat.pos_of_ne_zero h0.1
    have h1 : (0:Nat) < ri * 1000 + a * 997 := by omega
    have h2 : (0:Nat) < ri * 1000 + a' * 997 := by omega
    apply div_le_div_cross _ _ _ _ h1 h2
    calc a * 997 * ro * (ri * 1000 + a' * 997)
        = 997 * ro * (a * (ri * 1000)) + 997 * 997 * ro * (a * a') := by ring
      _ ≤ 997 * ro * (a' * (ri * 1000)) + 997 * 997 * ro * (a * a') :=
          Nat.add_le_add_right
            (Nat.mul_le_mul_left _ (Nat.mul_le_mul_right _ h)) _
      _ = a' * 997 * ro * (ri * 1000 + a * 997) := by ring

lemma amountOutSpec_mono_reserve_out (a ri ro ro' : Nat) (h : ro ≤ ro') :
    amountOutSpec a ri ro ≤ amountOutSpec a ri ro' := by
  unfold amountOutSpec
  by_cases hri : ri = 0
  · simp [hri]
  · by_cases hro : ro = 0
    · simp [hro]
    · have hro' : ro' ≠ 0 := by omega
      simp only [hri, hro, hro', or_self, if_false, false_or]
      exact Nat.div_le_div_right (Nat.mul_le_mul_left _ h)

lemma amountOutSpec_anti_reserve_in (a ri ri' ro : Nat) (hri : 0 < ri)
    (h : ri ≤ ri') : amountOutSpec a ri' ro ≤ amountOutSpec a ri ro := by
  unfold amountOutSpec
  by_cases hro : ro = 0
  · simp [hro]
  · have h1 : ri ≠ 0 := by omega
    have h2 : ri' ≠ 0 := by omega
    simp only [h1, h2, hro, or_self, if_false, or_false, false_or]
    apply Nat.div_le_div_left
    · have : ri * 1000 ≤ ri' * 1000 := Nat.mul_le_mul_right _ h
      omega
    · positivity

/-- C1 counterexample: at full 256-bit width the claimed identity fails.
For `amount_in = 2^255`, `reserve_in = 1`, `reserve_out = 4` the intermediate
product `amount_in * 997` overflows 256 bits, so the code panics (`none`)
instead of returning the spec formula value `3`. -/
theorem get_amount_out_full_width_cex :
    ¬ (math.get_amount_out (2 ^ 255) 1 4 =
        some (2 ^ 255 * 997 * 4 / (1 * 1000 + 2 ^ 255 * 997))) := by
  decide

/-- C1 (amended): whenever the intermediate products fit in 256 bits
(`amount_in * 997 * reserve_out < 2^256` and
`reserve_in * 1000 + amount_in * 997 < 2^256`), `get_amount_out` returns
exactly the spec formula: `0` if either reserve is zero, otherwise
`floor(amount_in*997*reserve_out / (reserve_in*1000 + amount_in*997))`;
in particular `0` for `amount_in = 0`. -/
theorem get_amount_out_formula (a ri ro : Nat)
    (hnum : a * 997 * ro < U256LIM)
    (hden : ri * 1000 + a * 997 < U256LIM) :
    math.get_amount_out a ri ro = some (amountOutSpec a ri ro) ∧
    (ri = 0 ∨ ro = 0 → amountOutSpec a ri ro = 0) ∧
    (a = 0 → amountOutSpec a ri ro = 0) ∧
    (ri ≠ 0 → ro ≠ 0 →
      amountOutSpec a ri ro = a * 997 * ro / (ri * 1000 + a * 997)) := by
  refine ⟨get_amount_out_eq_spec a ri ro hnum hden, ?_, ?_, ?_⟩
  · intro h0; unfold amountOutSpec; simp [h0]
  · intro h0; subst h0; unfold amountOutSpec; simp
  · intro h1 h2
    unfold amountOutSpec
    have : ¬(ri = 0 ∨ ro = 0) := by tauto
    simp [this]

/-- Witness for C1's amended theorem at
`amount_in = 10000`, `reserve_in = reserve_out = 100000`. -/
theorem get_amount_out_formula_witness :
    10000 * 997 * 100000 < U256LIM ∧
    math.get_amount_out 10000 100000 100000 =
      some (amountOutSpec 10000 100000 100000) :=
  ⟨by decide, (get_amount_out_formula 10000 100000 100000
      (by decide) (by decide)).1⟩

/-- C7 counterexample: on reserves `(100000, 100000)` and input `10000`
the code does not return the spec's stated golden value `9070`. -/
theorem get_amount_out_golden_cex :
    ¬ (math.get_amount_out 10000 100000 100000 = some 9070) := by
  decide

/-- C7 (amended): on reserves `(100000, 100000)` and input `10000` the quote
is `9066 = floor(10000*997*100000 / (100000*1000 + 10000*997))`. -/
theorem get_amount_out_golden :
    math.get_amount_out 10000 100000 100000 = some 9066 := by
  decide

/-- C8 counterexample: `get_amount_out` is not total over all 256-bit
inputs.  At this input (with `reserve_in = reserve_out = 1`) the checked
multiplication `amount_in * 997` overflows 256 bits and the code panics
(`none`); under wrapping arithmetic the same input makes the denominator
`reserve_in * 1000 + amount_in * 997 ≡ 0 (mod 2^256)`, a division by zero. -/
theorem get_amount_out_not_total_cex :
    math.get_amount_out
      34842153230887521190643225178140794740201600200293048356907999199973860473400
      1 1 = none := by
  decide

/-- C8 (amended): `get_amount_out` raises no error and returns a value for
every input combination whose operands are below `2^112` (the on-chain
reserve precision named by the spec), since then no intermediate product
can overflow 256 bits and the denominator is nonzero whenever it is used. -/
theorem get_amount_out_total_bounded (a ri ro : Nat)
    (ha : a < 2 ^ 112) (hri : ri < 2 ^ 112) (hro : ro < 2 ^ 112) :
    (math.get_amount_out a ri ro).isSome = true := by
  have ha' : a ≤ 2 ^ 112 - 1 := by omega
  have hri' : ri ≤ 2 ^ 112 - 1 := by omega
  have hro' : ro ≤ 2 ^ 112 - 1 := by omega
  have h1 : a * 997 * ro ≤ (2 ^ 112 - 1) * 997 * (2 ^ 112 - 1) :=
    Nat.mul_le_mul (Nat.mul_le_mul_right _ ha') hro'
  have h2 : ri * 1000 + a * 997 ≤
      (2 ^ 112 - 1) * 1000 + (2 ^ 112 - 1) * 997 := by
    have := Nat.mul_le_mul_right 1000 hri'
    have := Nat.mul_le_mul_right 997 ha'
    omega
  have hnum : a * 997 * ro < U256LIM := lt_of_le_of_lt h1 (by decide)
  have hden : ri * 1000 + a * 997 < U256LIM := lt_of_le_of_lt h2 (by decide)
  rw [get_amount_out_eq_spec a ri ro hnum hden]
  rfl

/-- Witness for C8's amended theorem at `(5, 7, 9)`. -/
theorem get_amount_out_total_bounded_witness :
    (5:Nat) < 2 ^ 112 ∧ (math.get_amount_out 5 7 9).isSome = true :=
  ⟨by decide, get_amount_out_total_bounded 5 7 9
      (by decide) (by decide) (by decide)⟩

/-- C6: `get_amount_out` is monotonically non-decreasing in `amount_in`
(whenever both computations return a value), and whenever
`reserve_in > 0`, `reserve_out > 0` and `amount_in > 0` the returned value
satisfies `0 ≤ amount_out < reserve_out` (the lower bound is inherent to
`Nat`). -/
theorem get_amount_out_monotone_bounded :
    (∀ a a' ri ro v v', math.get_amount_out a ri ro = some v →
      math.get_amount_out a' ri ro = some v' → a ≤ a' → v ≤ v') ∧
    (∀ a ri ro v, math.get_amount_out a ri ro = some v →
      0 < ri → 0 < ro → 0 < a → v < ro) := by
  constructor
  · intro a a' ri ro v v' h h' hle
    rw [get_amount_out_some a ri ro v h, get_amount_out_some a' ri ro v' h']
    exact amountOutSpec_mono_amount a a' ri ro hle
  · intro a ri ro v h hri hro _
    rw [get_amount_out_some a ri ro v h]
    exact amountOutSpec_lt a ri ro hri hro

/-- Witness for C6 at `reserve_in = reserve_out = 1000`,
`amount_in` growing from `100` (output `90`) to `200` (output `166`). -/
theorem get_amount_out_monotone_bounded_witness :
    math.get_amount_out 100 1000 1000 = some 90 ∧
    (90:Nat) ≤ 166 ∧ (90:Nat) < 1000 :=
  ⟨by decide,
   get_amount_out_monotone_bounded.1 100 200 1000 1000 90 166
     (by decide) (by decide) (by decide),
   get_amount_out_monotone_bounded.2 100 1000 1000 90
     (by decide) (by decide) (by decide) (by decide)⟩

/-- Embedding of `src/pool.rs::Pool`.  Addresses are opaque fixed-width
identifiers, modelled as `Nat`; the `provider` field (an RPC handle, used
only by the out-of-scope reserve fetch) is omitted. -/
structure Pool where
  pool_address : Nat
  token0_address : Nat
  token1_address : Nat
  reserve_token0 : Nat
  reserve_token1 : Nat
  name : String
deriving DecidableEq

/-- Embedding of `Pool::get_amount_out` (the pool-level quote). -/
def Pool.get_amount_out (p : Pool) (amount_in : Nat)
    (input_is_token0 : Bool) : Option Nat :=
  if input_is_token0 then
    math.get_amount_out amount_in p.reserve_token0 p.reserve_token1
  else
    math.get_amount_out amount_in p.reserve_token1 p.reserve_token0

/-- Embedding of `Pool::mock_swap`: quote, then mutate the reserves with
checked 256-bit addition and subtraction. -/
def Pool.mock_swap (p : Pool) (amount_in : Nat)
    (input_is_token0 : Bool) : Option (Nat × Pool) := do
  let amount_out ← p.get_amount_out amount_in input_is_token0
  if input_is_token0 then do
    let r0 ← checkedAdd p.reserve_token0 amount_in
    let r1 ← checkedSub p.reserve_token1 amount_out
    some (amount_out, { p with reserve_token0 := r0, reserve_token1 := r1 })
  else do
    let r1 ← checkedAdd p.reserve_token1 amount_in
    let r0 ← checkedSub p.reserve_token0 amount_out
    some (amount_out, { p with reserve_token0 := r0, reserve_token1 := r1 })

/-- The input-side reserve of a pool for a given swap direction. -/
def reserveIn (p : Pool) (input_is_token0 : Bool) : Nat :=
  if input_is_token0 then p.reserve_token0 else p.reserve_token1

/-- The output-side reserve of a pool for a given swap direction. -/
def reserveOut (p : Pool) (input_is_token0 : Bool) : Nat :=
  if input_is_token0 then p.reserve_token1 else p.reserve_token0

lemma Pool.get_amount_out_eq (p : Pool) (a : Nat) (b : Bool) :
    p.get_amount_out a b =
      math.get_amount_out a (reserveIn p b) (reserveOut p b) := by
  cases b <;> rfl

/-- Full decomposition of a successful `mock_swap`. -/
lemma mock_swap_eq_some (p : Pool) (a : Nat) (b : Bool) (out : Nat)
    (p' : Pool) (h : p.mock_swap a b = some (out, p')) :
    p.get_amount_out a b = some out ∧
    reserveIn p b + a < U256LIM ∧
    out ≤ reserveOut p b ∧
    reserveIn p' b = reserveIn p b + a ∧
    reserveOut p' b = reserveOut p b - out ∧
    p'.pool_address = p.pool_address ∧
    p'.token0_address = p.token0_address ∧
    p'.token1_address = p.token1_address ∧
    p'.name = p.name := by
  cases b <;>
    · simp only [Pool.mock_swap, checkedAdd, checkedSub, if_true, if_false,
        Bool.false_eq_true, Option.bind_eq_bind, Option.bind_eq_some,
        Option.ite_none_right_eq_some, Option.some.injEq, Prod.mk.injEq] at h
      obtain ⟨out', hq, r, ⟨hadd, hr⟩, s, ⟨hsub, hs⟩, hout, hp'⟩ := h
      subst hr hs hout hp'
      simp_all [reserveIn, reserveOut]

/-- C3: a successful `mock_swap` returns exactly the value the pool quote
returns on the pre-mutation reserves; afterwards the input-side reserve is
`old_reserve_in + amount_in`, the output-side reserve is
`old_reserve_out - amount_out`, and no other field of the pool changed. -/
theorem mock_swap_spec (p : Pool) (a : Nat) (b : Bool) (out : Nat)
    (p' : Pool) (h : p.mock_swap a b = some (out, p')) :
    p.get_amount_out a b = some out ∧
    reserveIn p' b = reserveIn p b + a ∧
    out ≤ reserveOut p b ∧
    reserveOut p' b = reserveOut p b - out ∧
    p'.pool_address = p.pool_address ∧
    p'.token0_address = p.token0_address ∧
    p'.token1_address = p.token1_address ∧
    p'.name = p.name := by
  obtain ⟨h1, _, h3, h4, h5, h6, h7, h8, h9⟩ := mock_swap_eq_some p a b out p' h
  exact ⟨h1, h4, h3, h5, h6, h7, h8, h9⟩

def poolW1 : Pool := ⟨7, 1, 2, 1000, 1000, "P"⟩

def poolW1' : Pool := ⟨7, 1, 2, 1100, 910, "P"⟩

/-- Witness for C3: swapping `100` of token0 into a `(1000, 1000)` pool
yields `90` and reserves `(1100, 910)`. -/
theorem mock_swap_spec_witness :
    Pool.get_amount_out poolW1 100 true = some 90 ∧
    reserveIn poolW1' true = reserveIn poolW1 true + 100 ∧
    90 ≤ reserveOut poolW1 true ∧
    reserveOut poolW1' true = reserveOut poolW1 true - 90 ∧
    poolW1'.pool_address = poolW1.pool_address ∧
    poolW1'.token0_address = poolW1.token0_address ∧
    poolW1'.token1_address = poolW1.token1_address ∧
    poolW1'.name = poolW1.name :=
  mock_swap_spec poolW1 100 true 90 poolW1' (by decide)

/-- C9: for a pool with both reserves positive, two consecutive
`mock_swap`s of the same positive amount on the same side produce a
non-increasing pair of outputs; chained along the run this makes the whole
per-chunk output sequence non-increasing. -/
theorem mock_swap_outputs_nonincreasing (p : Pool) (a : Nat) (b : Bool)
    (hri : 0 < reserveIn p b) (_hro : 0 < reserveOut p b) (_ha : 0 < a)
    (out1 out2 : Nat) (p1 p2 : Pool)
    (h1 : p.mock_swap a b = some (out1, p1))
    (h2 : p1.mock_swap a b = some (out2, p2)) :
    out2 ≤ out1 := by
  obtain ⟨hq1, _, hle1, hin1, hout1, _⟩ := mock_swap_eq_some p a b out1 p1 h1
  obtain ⟨hq2, _⟩ := mock_swap_eq_some p1 a b out2 p2 h2
  rw [Pool.get_amount_out_eq] at hq1 hq2
  have e1 := get_amount_out_some _ _ _ _ hq1
  have e2 := get_amount_out_some _ _ _ _ hq2
  rw [hin1, hout1] at e2
  calc out2 = amountOutSpec a (reserveIn p b + a) (reserveOut p b - out1) :=
        e2
    _ ≤ amountOutSpec a (reserveIn p b + a) (reserveOut p b) :=
        amountOutSpec_mono_reserve_out _ _ _ _ (Nat.sub_le _ _)
    _ ≤ amountOutSpec a (reserveIn p b) (reserveOut p b) :=
        amountOutSpec_anti_reserve_in _ _ _ _ hri (Nat.le_add_right _ _)
    _ = out1 := e1.symm

/-- Witness for C9: on the `(1000, 1000)` pool with chunks of `100`, the
first output is `90` and the second is `75`. -/
theorem mock_swap_outputs_nonincreasing_witness :
    Pool.mock_swap poolW1 100 true = some (90, poolW1') ∧ (75:Nat) ≤ 90 :=
  ⟨by decide,
   mock_swap_outputs_nonincreasing poolW1 100 true (by decide) (by decide)
     (by decide) 90 75 poolW1' ⟨7, 1, 2, 1200, 835, "P"⟩
     (by decide) (by decide)⟩

/-- C10: the quoted output never exceeds the output-side reserve, so the
reserve subtraction in `mock_swap` can never underflow (a failing
`mock_swap` is never caused by the subtraction); and when either reserve
is zero a successful `mock_swap` outputs `0` and leaves the output-side
reserve unchanged. -/
theorem mock_swap_no_underflow (p : Pool) (a : Nat) (b : Bool) :
    (∀ out, p.get_amount_out a b = some out → out ≤ reserveOut p b) ∧
    (reserveIn p b = 0 ∨ reserveOut p b = 0 →
      ∀ out p', p.mock_swap a b = some (out, p') →
        out = 0 ∧ reserveOut p' b = reserveOut p b) ∧
    (p.mock_swap a b = none →
      p.get_amount_out a b = none ∨ U256LIM ≤ reserveIn p b + a) := by
  have bound : ∀ out, p.get_amount_out a b = some out →
      out ≤ reserveOut p b := by
    intro out hq
    rw [Pool.get_amount_out_eq] at hq
    rw [get_amount_out_some _ _ _ _ hq]
    exact amountOutSpec_le _ _ _
  refine ⟨bound, ?_, ?_⟩
  · intro h0 out p' hs
    obtain ⟨hq, _, _, _, hout, _⟩ := mock_swap_eq_some p a b out p' hs
    have hz : out = 0 := by
      rw [Pool.get_amount_out_eq] at hq
      rw [get_amount_out_some _ _ _ _ hq]
      unfold amountOutSpec
      simp [h0]
    refine ⟨hz, ?_⟩
    rw [hout, hz]
    omega
  · intro hnone
    by_cases hq : p.get_amount_out a b = none
    · exact Or.inl hq
    · right
      obtain ⟨out, hq⟩ := Option.ne_none_iff_exists'.mp hq
      by_cases hadd : reserveIn p b + a < U256LIM
      · exfalso
        have hle := bound out hq
        cases b <;>
          simp_all [Pool.mock_swap, checkedAdd, checkedSub,
            reserveIn, reserveOut] <;>
          omega
      · omega

/-- Witness for C10 at the `(1000, 1000)` pool and `amount_in = 100`. -/
theorem mock_swap_no_underflow_witness :
    (∀ out, Pool.get_amount_out poolW1 100 true = some out →
      out ≤ reserveOut poolW1 true) ∧
    (reserveIn poolW1 true = 0 ∨ reserveOut poolW1 true = 0 →
      ∀ out p', Pool.mock_swap poolW1 100 true = some (out, p') →
        out = 0 ∧ reserveOut p' true = reserveOut poolW1 true) ∧
    (Pool.mock_swap poolW1 100 true = none →
      Pool.get_amount_out poolW1 100 true = none ∨
        U256LIM ≤ reserveIn poolW1 true + 100) :=
  mock_swap_no_underflow poolW1 100 true

namespace config

/-- Embedding of `src/config.rs::USDC_ADDRESS` (Polygon USDC). -/
def USDC_ADDRESS : Nat := 0x3c499c542cEF5E3811e1192ce70d8cC03d5c3359

/-- Embedding of `src/config.rs::USDC_E_ADDRESS` (Polygon bridged USDC.e). -/
def USDC_E_ADDRESS : Nat := 0x2791bca1f2de4661ed88a30c99a7a9449aa84174

/-- Embedding of `src/config.rs::NUM_CHUNKS`. -/
def NUM_CHUNKS : Nat := 100

/-- Embedding of `src/config.rs::get_chunk_usdc_amount`:
`usdc_from_decimal(10000.0) = (10000.0 * 1e6) as u64 = 10^10`; the float
product is exactly representable, so the raw chunk amount is the exact
integer `10_000_000_000`. -/
def get_chunk_usdc_amount : Nat := 10000000000

end config

/-- Embedding of `src/solver.rs::ChunkRoute`.  The two `f64` display
fields (`amount_in_decimal`, `amount_out_decimal`) are derived
human-readable copies of `amount_in`/`amount_out` and are omitted. -/
structure ChunkRoute where
  chunk_index : Nat
  best_pool_name : String
  amount_in : Nat
  amount_out : Nat
deriving DecidableEq

/-- Embedding of `src/solver.rs::SolverResult` (without the derived
`total_weth_out_decimal` display field). -/
structure SolverResult where
  total_weth_out : Nat
  chunk_routes : List ChunkRoute
deriving DecidableEq

/-- The per-chunk selection state of `find_best_routes`
(`best_output`, `best_pool_name`, `best_pool_index`,
`best_input_is_token0`). -/
structure BestSel where
  best_output : Nat
  best_pool_name : String
  best_pool_index : Nat
  best_input_is_token0 : Bool
deriving DecidableEq

/-- Initial selection state of each chunk iteration. -/
def initialBest : BestSel := ⟨0, "", 0, false⟩

/-- Embedding of the inner pool scan of `src/solver.rs::find_best_routes`
(lines 49–89): skip pools holding neither USDC nor USDC.e, quote each
remaining pool, and keep the strictly best output. -/
def selectBest (chunk_amount_raw : Nat) :
    List Pool → Nat → BestSel → Option BestSel
  | [], _, best => some best
  | pool :: rest, pool_index, best =>
    let usdc_is_token0 := pool.token0_address == config.USDC_ADDRESS
    let usdc_is_token1 := pool.token1_address == config.USDC_ADDRESS
    let usdc_e_is_token0 := pool.token0_address == config.USDC_E_ADDRESS
    let usdc_e_is_token1 := pool.token1_address == config.USDC_E_ADDRESS
    let has_usdc := usdc_is_token0 || usdc_is_token1
    let has_usdc_e := usdc_e_is_token0 || usdc_e_is_token1
    if !has_usdc && !has_usdc_e then
      selectBest chunk_amount_raw rest (pool_index + 1) best
    else
      let input_is_token0 := usdc_is_token0 || usdc_e_is_token0
      (pool.get_amount_out chunk_amount_raw input_is_token0).bind fun output =>
        selectBest chunk_amount_raw rest (pool_index + 1)
          (if best.best_output < output then
            { best_output := output, best_pool_name := pool.name,
              best_pool_index := pool_index,
              best_input_is_token0 := input_is_token0 }
          else best)

/-- Embedding of one chunk iteration of `find_best_routes` (lines 41–124):
scan all pools, then `mock_swap` the winning pool only when its quote is
positive, and record the chunk route. -/
def chunkStep (pools : List Pool) (chunk_amount_raw i : Nat) :
    Option (List Pool × ChunkRoute) := do
  let best ← selectBest chunk_amount_raw pools 0 initialBest
  if 0 < best.best_output then do
    let pool ← pools[best.best_pool_index]?
    let res ← pool.mock_swap chunk_amount_raw best.best_input_is_token0
    some (pools.set best.best_pool_index res.2,
      { chunk_index := i + 1, best_pool_name := best.best_pool_name,
        amount_in := chunk_amount_raw, amount_out := res.1 })
  else
    some (pools,
      { chunk_index := i + 1, best_pool_name := best.best_pool_name,
        amount_in := chunk_amount_raw, amount_out := best.best_output })

/-- The chunk loop of `find_best_routes`, threading the mutated pools, the
running total (checked 256-bit accumulation) and the recorded routes. -/
def solverLoop (chunk_amount_raw : Nat) :
    Nat → Nat → List Pool → Nat → List ChunkRoute → Option SolverResult
  | 0, _, _, total_weth_out, chunk_routes =>
      some ⟨total_weth_out, chunk_routes.reverse⟩
  | n + 1, i, pools, total_weth_out, chunk_routes => do
      let (pools', route) ← chunkStep pools chunk_amount_raw i
      let total' ← checkedAdd total_weth_out route.amount_out
      solverLoop chunk_amount_raw n (i + 1) pools' total' (route :: chunk_routes)

/-- Embedding of `src/solver.rs::find_best_routes`: 100 chunks of
`10^10` raw USDC each, starting from zero accumulated output. -/
def find_best_routes (pools : List Pool) : Option SolverResult :=
  solverLoop config.get_chunk_usdc_amount config.NUM_CHUNKS 0 pools 0 []

/-- A pool is a candidate when one of its two tokens is USDC or USDC.e
(the spec's `has_input_token OR has_equivalent_token`). -/
def poolEligible (p : Pool) : Bool :=
  ((p.token0_address == config.USDC_ADDRESS) ||
   (p.token1_address == config.USDC_ADDRESS)) ||
  ((p.token0_address == config.USDC_E_ADDRESS) ||
   (p.token1_address == config.USDC_E_ADDRESS))

/-- The swap direction the solver chooses for a candidate pool. -/
def poolInputIsToken0 (p : Pool) : Bool :=
  (p.token0_address == config.USDC_ADDRESS) ||
  (p.token0_address == config.USDC_E_ADDRESS)

/-- The quote the solver computes for a candidate pool. -/
def poolQuote (chunk : Nat) (p : Pool) : Option Nat :=
  p.get_amount_out chunk (poolInputIsToken0 p)

/-- The quote of the candidate at position `i`, `none` for a skipped or
absent pool. -/
def candidateQuote (chunk : Nat) (pools : List Pool) (i : Nat) :
    Option Nat :=
  match pools[i]? with
  | some p => if poolEligible p then poolQuote chunk p else none
  | none => none

lemma candidateQuote_cons_zero (chunk : Nat) (p : Pool) (rest : List Pool) :
    candidateQuote chunk (p :: rest) 0 =
      if poolEligible p then poolQuote chunk p else none := by
  simp [candidateQuote]

lemma candidateQuote_cons_succ (chunk : Nat) (p : Pool) (rest : List Pool)
    (i : Nat) :
    candidateQuote chunk (p :: rest) (i + 1) = candidateQuote chunk rest i := by
  simp [candidateQuote]

/-- One unfolding step of the scan, phrased through `poolEligible`. -/
lemma selectBest_cons (chunk : Nat) (p : Pool) (rest : List Pool)
    (idx : Nat) (acc : BestSel) :
    selectBest chunk (p :: rest) idx acc =
      if poolEligible p then
        (poolQuote chunk p).bind fun output =>
          selectBest chunk rest (idx + 1)
            (if acc.best_output < output then
              { best_output := output, best_pool_name := p.name,
                best_pool_index := idx,
                best_input_is_token0 := poolInputIsToken0 p }
            else acc)
      else selectBest chunk rest (idx + 1) acc := by
  cases e1 : (p.token0_address == config.USDC_ADDRESS) <;>
  cases e2 : (p.token1_address == config.USDC_ADDRESS) <;>
  cases e3 : (p.token0_address == config.USDC_E_ADDRESS) <;>
  cases e4 : (p.token1_address == config.USDC_E_ADDRESS) <;>
    simp [selectBest, poolEligible, poolQuote, poolInputIsToken0,
      e1, e2, e3, e4]

/-- Full characterization of the scan: the result dominates every
candidate quote, and any strict improvement over the accumulator is
realized by the first candidate achieving the final best output. -/
lemma selectBest_spec (chunk : Nat) :
    ∀ (pools : List Pool) (idx : Nat) (acc sel : BestSel),
    selectBest chunk pools idx acc = some sel →
    acc.best_output ≤ sel.best_output ∧
    (∀ i q, candidateQuote chunk pools i = some q → q ≤ sel.best_output) ∧
    (sel = acc ∨ ∃ i p, pools[i]? = some p ∧ poolEligible p = true ∧
      sel.best_pool_index = idx + i ∧
      poolQuote chunk p = some sel.best_output ∧
      sel.best_pool_name = p.name ∧
      sel.best_input_is_token0 = poolInputIsToken0 p ∧
      acc.best_output < sel.best_output ∧
      (∀ j q, j < i → candidateQuote chunk pools j = some q →
        q < sel.best_output)) := by
  intro pools
  induction pools with
  | nil =>
    intro idx acc sel h
    simp only [selectBest, Option.some.injEq] at h
    subst h
    refine ⟨le_refl _, ?_, Or.inl rfl⟩
    intro i q hq
    simp [candidateQuote] at hq
  | cons p rest ih =>
    intro idx acc sel h
    rw [selectBest_cons] at h
    by_cases hel : poolEligible p = true
    · simp only [hel, if_true] at h
      cases hq : poolQuote chunk p with
      | none => rw [hq] at h; simp at h
      | some output =>
        rw [hq] at h
        simp only [Option.some_bind] at h
        by_cases hlt : acc.best_output < output
        · rw [if_pos hlt] at h
          obtain ⟨ih1, ih2, ih3⟩ := ih (idx + 1) _ sel h
          have ih1' : output ≤ sel.best_output := ih1
          refine ⟨by omega, ?_, ?_⟩
          · intro i q hcq
            cases i with
            | zero =>
              rw [candidateQuote_cons_zero, if_pos hel, hq] at hcq
              have hqo : q = output := by simpa using hcq.symm
              omega
            | succ i =>
              rw [candidateQuote_cons_succ] at hcq
              exact ih2 i q hcq
          · rcases ih3 with heq | ⟨i, pw, hw1, hw2, hw3, hw4, hw5, hw6, hw7, hw8⟩
            · subst heq
              refine Or.inr ⟨0, p, by simp, hel, by simp, by simpa using hq,
                rfl, rfl, hlt, ?_⟩
              intro j q hj hcq
              omega
            · have hw7' : output < sel.best_output := hw7
              refine Or.inr ⟨i + 1, pw, by simpa using hw1, hw2,
                by omega, hw4, hw5, hw6, by omega, ?_⟩
              intro j q hj hcq
              cases j with
              | zero =>
                rw [candidateQuote_cons_zero, if_pos hel, hq] at hcq
                have hqo : q = output := by simpa using hcq.symm
                omega
              | succ j =>
                rw [candidateQuote_cons_succ] at hcq
                exact hw8 j q (by omega) hcq
        · rw [if_neg hlt] at h
          obtain ⟨ih1, ih2, ih3⟩ := ih (idx + 1) acc sel h
          refine ⟨ih1, ?_, ?_⟩
          · intro i q hcq
            cases i with
            | zero =>
              rw [candidateQuote_cons_zero, if_pos hel, hq] at hcq
              have hqo : q = output := by simpa using hcq.symm
              omega
            | succ i =>
              rw [candidateQuote_cons_succ] at hcq
              exact ih2 i q hcq
          · rcases ih3 with heq | ⟨i, pw, hw1, hw2, hw3, hw4, hw5, hw6, hw7, hw8⟩
            · exact Or.inl heq
            · refine Or.inr ⟨i + 1, pw, by simpa using hw1, hw2,
                by omega, hw4, hw5, hw6, hw7, ?_⟩
              intro j q hj hcq
              cases j with
              | zero =>
                rw [candidateQuote_cons_zero, if_pos hel, hq] at hcq
                have hqo : q = output := by simpa using hcq.symm
                omega
              | succ j =>
                rw [candidateQuote_cons_succ] at hcq
                exact hw8 j q (by omega) hcq
    · rw [if_neg hel] at h
      obtain ⟨ih1, ih2, ih3⟩ := ih (idx + 1) acc sel h
      have hel' : poolEligible p = false := by
        cases hb : poolEligible p
        · rfl
        · exact absurd hb hel
      refine ⟨ih1, ?_, ?_⟩
      · intro i q hcq
        cases i with
        | zero =>
          rw [candidateQuote_cons_zero, hel'] at hcq
          simp at hcq
        | succ i =>
          rw [candidateQuote_cons_succ] at hcq
          exact ih2 i q hcq
      · rcases ih3 with heq | ⟨i, pw, hw1, hw2, hw3, hw4, hw5, hw6, hw7, hw8⟩
        · exact Or.inl heq
        · refine Or.inr ⟨i + 1, pw, by simpa using hw1, hw2,
            by omega, hw4, hw5, hw6, hw7, ?_⟩
          intro j q hj hcq
          cases j with
          | zero =>
            rw [candidateQuote_cons_zero, hel'] at hcq
            simp at hcq
          | succ j =>
            rw [candidateQuote_cons_succ] at hcq
            exact hw8 j q (by omega) hcq

/-- C2: in every chunk iteration, pools holding neither USDC nor USDC.e
are skipped (the scan ignores them entirely), and among the remaining
candidates the scan selects the pool with the strictly greatest quote for
the chunk amount; on ties the first pool in iteration order is kept
(every earlier candidate quotes strictly less than the winner). -/
theorem solver_pool_selection (chunk : Nat) (pools : List Pool)
    (sel : BestSel)
    (h : selectBest chunk pools 0 initialBest = some sel) :
    (∀ p rest idx acc, poolEligible p = false →
      selectBest chunk (p :: rest) idx acc =
        selectBest chunk rest (idx + 1) acc) ∧
    (∀ i q, candidateQuote chunk pools i = some q → q ≤ sel.best_output) ∧
    (0 < sel.best_output → ∃ p, pools[sel.best_pool_index]? = some p ∧
      poolEligible p = true ∧
      poolQuote chunk p = some sel.best_output ∧
      sel.best_pool_name = p.name ∧
      sel.best_input_is_token0 = poolInputIsToken0 p ∧
      (∀ j q, j < sel.best_pool_index →
        candidateQuote chunk pools j = some q → q < sel.best_output)) := by
  obtain ⟨_, h2, h3⟩ := selectBest_spec chunk pools 0 initialBest sel h
  refine ⟨?_, h2, ?_⟩
  · intro p rest idx acc hel
    rw [selectBest_cons, if_neg (by simp [hel])]
  · intro hpos
    rcases h3 with heq | ⟨i, p, hp, hel, hidx, hq, hname, hflag, _, hfirst⟩
    · rw [heq] at hpos
      simp [initialBest] at hpos
    · have hidx' : sel.best_pool_index = i := by omega
      rw [hidx']
      exact ⟨p, hp, hel, hq, hname, hflag,
        fun j q hj hcq => hfirst j q (by omega) hcq⟩

def poolWX : Pool := ⟨1, 50, 60, 5, 5, "W"⟩

def poolWA : Pool := ⟨2, config.USDC_ADDRESS, 99, 100000, 100000, "A"⟩

def poolWB : Pool := ⟨3, 77, config.USDC_E_ADDRESS, 50000, 50000, "B"⟩

def selW : BestSel := ⟨9066, "A", 1, true⟩

/-- Witness for C2: pools `[W, A, B]` where `W` holds neither USDC token,
`A` quotes `9066` and `B` quotes `8312` for a chunk of `10000`; the scan
selects `A` at index `1`. -/
theorem solver_pool_selection_witness :
    (∀ p rest idx acc, poolEligible p = false →
      selectBest 10000 (p :: rest) idx acc =
        selectBest 10000 rest (idx + 1) acc) ∧
    (∀ i q, candidateQuote 10000 [poolWX, poolWA, poolWB] i = some q →
      q ≤ selW.best_output) ∧
    (0 < selW.best_output →
      ∃ p, [poolWX, poolWA, poolWB][selW.best_pool_index]? = some p ∧
      poolEligible p = true ∧
      poolQuote 10000 p = some selW.best_output ∧
      selW.best_pool_name = p.name ∧
      selW.best_input_is_token0 = poolInputIsToken0 p ∧
      (∀ j q, j < selW.best_pool_index →
        candidateQuote 10000 [poolWX, poolWA, poolWB] j = some q →
          q < selW.best_output)) :=
  solver_pool_selection 10000 [poolWX, poolWA, poolWB] selW (by decide)

/-- C4: per chunk iteration, positivity of the best candidate quote is
equivalent to the scan result being positive; when it is zero the chunk
mutates no pool, records the empty pool name and zero output, and does not
fail; when it is positive, exactly the winning pool is replaced by its
`mock_swap` image while every other position is unchanged. -/
theorem solver_chunk_frame (chunk i : Nat) (pools : List Pool)
    (sel : BestSel)
    (h : selectBest chunk pools 0 initialBest = some sel) :
    ((∃ j q, candidateQuote chunk pools j = some q ∧ 0 < q) ↔
      0 < sel.best_output) ∧
    (sel.best_output = 0 →
      chunkStep pools chunk i = some (pools, ⟨i + 1, "", chunk, 0⟩)) ∧
    (0 < sel.best_output → ∀ pools' route,
      chunkStep pools chunk i = some (pools', route) →
      ∃ p out p', pools[sel.best_pool_index]? = some p ∧
        p.mock_swap chunk sel.best_input_is_token0 = some (out, p') ∧
        pools' = pools.set sel.best_pool_index p' ∧
        (∀ j, j ≠ sel.best_pool_index → pools'[j]? = pools[j]?) ∧
        route = ⟨i + 1, sel.best_pool_name, chunk, out⟩) := by
  obtain ⟨_, h2, h3⟩ := selectBest_spec chunk pools 0 initialBest sel h
  refine ⟨⟨?_, ?_⟩, ?_, ?_⟩
  · rintro ⟨j, q, hcq, hq⟩
    have := h2 j q hcq
    omega
  · intro hpos
    rcases h3 with heq | ⟨i', p, hp, hel, hidx, hq, _⟩
    · rw [heq] at hpos
      simp [initialBest] at hpos
    · exact ⟨i', sel.best_output, by simp [candidateQuote, hp, hel, hq],
        hpos⟩
  · intro hzero
    have hname : sel.best_pool_name = "" := by
      rcases h3 with heq | ⟨_, _, _, _, _, _, _, _, hgt, _⟩
      · rw [heq]; rfl
      · omega
    simp only [chunkStep, h, Option.bind_eq_bind, Option.some_bind]
    rw [if_neg (by omega)]
    rw [hname, hzero]
  · intro hpos pools' route hstep
    rcases h3 with heq | ⟨i', p, hp, hel, hidx, hq, _⟩
    · rw [heq] at hpos
      simp [initialBest] at hpos
    · have hidx' : sel.best_pool_index = i' := by omega
      simp only [chunkStep, h, Option.bind_eq_bind, Option.some_bind,
        if_pos hpos, hidx', hp, Option.bind_eq_some,
        Option.some.injEq] at hstep
      obtain ⟨⟨out, p'⟩, hswap, hres⟩ := hstep
      injection hres with hres1 hres2
      refine ⟨p, out, p', by rw [hidx']; exact hp, hswap, ?_, ?_, ?_⟩
      · rw [hidx']
        exact hres1.symm
      · intro j hj
        rw [← hres1]
        exact List.getElem?_set_ne (by omega)
      · exact hres2.symm

/-- Witness for C4: on pools `[W, A, B]` the winning pool `A` (index `1`)
is swapped and the route records its name and output. -/
theorem solver_chunk_frame_witness :
    ((∃ j q, candidateQuote 10000 [poolWX, poolWA, poolWB] j = some q ∧
        0 < q) ↔ 0 < selW.best_output) ∧
    (selW.best_output = 0 →
      chunkStep [poolWX, poolWA, poolWB] 10000 0 =
        some ([poolWX, poolWA, poolWB], ⟨0 + 1, "", 10000, 0⟩)) ∧
    (0 < selW.best_output → ∀ pools' route,
      chunkStep [poolWX, poolWA, poolWB] 10000 0 = some (pools', route) →
      ∃ p out p',
        [poolWX, poolWA, poolWB][selW.best_pool_index]? = some p ∧
        Pool.mock_swap p 10000 selW.best_input_is_token0 = some (out, p') ∧
        pools' = [poolWX, poolWA, poolWB].set selW.best_pool_index p' ∧
        (∀ j, j ≠ selW.best_pool_index →
          pools'[j]? = [poolWX, poolWA, poolWB][j]?) ∧
        route = ⟨0 + 1, selW.best_pool_name, 10000, out⟩) :=
  solver_chunk_frame 10000 0 [poolWX, poolWA, poolWB] selW (by decide)

/-- The loop invariant behind the router total: a completed loop extends
the accumulated routes and adds exactly the new routes' outputs to the
running total. -/
lemma solverLoop_total (chunk : Nat) :
    ∀ (n i : Nat) (pools : List Pool) (total : Nat)
      (acc : List ChunkRoute) (res : SolverResult),
    solverLoop chunk n i pools total acc = some res →
    ∃ gen, res.chunk_routes = acc.reverse ++ gen ∧
      res.total_weth_out = total + (gen.map ChunkRoute.amount_out).sum := by
  intro n
  induction n with
  | zero =>
    intro i pools total acc res h
    simp only [solverLoop, Option.some.injEq] at h
    subst h
    exact ⟨[], by simp, by simp⟩
  | succ n ih =>
    intro i pools total acc res h
    simp only [solverLoop, Option.bind_eq_bind, Option.bind_eq_some] at h
    obtain ⟨⟨pools', route⟩, hstep, h⟩ := h
    obtain ⟨total', hadd, h⟩ := h
    have htot : total' = total + route.amount_out := by
      simp only [checkedAdd, Option.ite_none_right_eq_some,
        Option.some.injEq] at hadd
      exact hadd.2.symm
    obtain ⟨gen, hg1, hg2⟩ := ih (i + 1) pools' total' (route :: acc) res h
    refine ⟨route :: gen, ?_, ?_⟩
    · rw [hg1]
      simp
    · rw [hg2, htot]
      simp
      ring

/-- C5: for every completed run of `find_best_routes`, the returned
total equals the sum of the `amount_out` fields over all recorded chunk
routes, exactly. -/
theorem solver_total_invariant (pools : List Pool) (res : SolverResult)
    (h : find_best_routes pools = some res) :
    res.total_weth_out =
      (res.chunk_routes.map ChunkRoute.amount_out).sum := by
  obtain ⟨gen, h1, h2⟩ := solverLoop_total config.get_chunk_usdc_amount
    config.NUM_CHUNKS 0 pools 0 [] res h
  simp only [List.reverse_nil, List.nil_append] at h1
  rw [h2, h1]
  simp

/-- The route list of a run over an empty pool set: 100 zero-output
chunks. -/
def emptyRunRoutes : List ChunkRoute :=
  (List.range 100).map fun i => ⟨i + 1, "", 10000000000, 0⟩

set_option maxRecDepth 100000 in
/-- Witness for C5: the run over no pools returns total `0`, matching the
sum of its 100 zero-output routes. -/
theorem solver_total_invariant_witness :
    SolverResult.total_weth_out ⟨0, emptyRunRoutes⟩ =
      ((⟨0, emptyRunRoutes⟩ :
        SolverResult).chunk_routes.map ChunkRoute.amount_out).sum :=
  solver_total_invariant [] ⟨0, emptyRunRoutes⟩ (by decide)
